import Mathlib

/-!
# Verification of the faculty-award-nomination chunking + retrieval pipeline

A shallow embedding, in Lean 4, of the core pure logic of the repository:

* `chunk_text` and `generate_chunk_id` from `src/ingest_cv.py`
  (and the duplicate `chunk_text` from `prototype/ingest_cv.py`);
* the control flow of `ingest_cvs` from `src/ingest_cv.py`;
* the hit filtering and grouping of `get_relevant_context` from
  `prototype/rag_matching.py` and from `src/rag_matching.py`;
* the placeholder substitution used by `match_award_to_faculty`;
* the response handling of `call_llm` from `src/rag_matching.py`.

Python strings are modelled as `List Char` (a Python `str` is a sequence of
Unicode code points).  Python functions that can raise are modelled in
`Except String`.  External collaborators (PDF extraction, the embedding
model, the vector index, HTTP) are modelled as inputs to the embedded
functions, exactly as the specification treats them (opaque collaborators).
-/

/-! ## Python string primitives -/

/-- The characters Python's `str.split()` and `str.strip()` treat as
whitespace (for the ASCII range relevant here). -/
def pyIsSpace (c : Char) : Bool :=
  (c = ' ') || (c = '\t') || (c = '\n') || (c = '\r') || (c = '\x0b') || (c = '\x0c')

/-- Worker for `str.split()`: scans the character list, accumulating the
current word (in reverse) in `acc`, emitting a word at each whitespace run
boundary, and dropping empty words. -/
def wordsAux : List Char → List Char → List (List Char)
  | [], acc => if acc.isEmpty then [] else [acc.reverse]
  | c :: cs, acc =>
    if pyIsSpace c then
      if acc.isEmpty then wordsAux cs [] else acc.reverse :: wordsAux cs []
    else wordsAux cs (c :: acc)

/-- Python `text.split()` (no argument): split on runs of whitespace,
discarding empty pieces. -/
def pySplit (s : List Char) : List (List Char) :=
  wordsAux s []

/-- Python `s.strip()` (no argument): remove leading and trailing
whitespace. -/
def pyStrip (s : List Char) : List Char :=
  ((s.dropWhile pyIsSpace).reverse.dropWhile pyIsSpace).reverse

/-- Python `sep.join(pieces)`. -/
def pyJoin (sep : List Char) : List (List Char) → List Char
  | [] => []
  | [w] => w
  | w :: v :: ws => w ++ sep ++ pyJoin sep (v :: ws)

/-- Python slice `l[a : b]` with a non-negative start `a` and an arbitrary
integer stop `b` (a negative stop counts from the end; the stop is clamped
to the list). -/
def pySlice {α : Type} (l : List α) (a : Nat) (b : Int) : List α :=
  let n : Int := l.length
  let bstop : Int := if b < 0 then max 0 (n + b) else min b n
  (l.drop a).take (bstop - (a : Int)).toNat

/-! ## `chunk_text` (src/ingest_cv.py, lines 51-78) -/

/-- The body of the `for i in range(0, len(words), chunk_size - overlap)`
loop of `chunk_text`, for a positive step `s + 1`.  At each index `i` that
is still inside the word list it takes the slice `words[i : i + chunk_size]`,
joins it with single spaces, appends it when its strip is non-empty, and
stops after the window whose end reaches the word count
(`if i + chunk_size >= len(words): break`).  The `fuel` argument makes the
recursion structural; since `i` strictly increases and the loop only runs
while `i < words.length`, a fuel of `words.length + 1` is never exhausted
(`chunkLoop_fuel_stable` below shows the result is fuel-independent once
the fuel covers the remaining iterations). -/
def chunkLoop (words : List (List Char)) (chunk_size : Int) (s : Nat) :
    Nat → Nat → List (List Char)
  | 0, _ => []
  | fuel + 1, i =>
    if i < words.length then
      let chunk_words := pySlice words i ((i : Int) + chunk_size)
      let chunk_str := pyJoin [' '] chunk_words
      let rest :=
        if (words.length : Int) ≤ (i : Int) + chunk_size then []
        else chunkLoop words chunk_size s fuel (i + s + 1)
      if (pyStrip chunk_str).isEmpty then rest else chunk_str :: rest
    else []

/-- Embedding of `chunk_text` from `src/ingest_cv.py`: split `text` into whitespace
tokens; an empty token list yields `[]`; a zero loop step
(`chunk_size - overlap == 0`) makes Python's `range` raise `ValueError`;
a negative step makes `range(0, len(words), step)` empty, so the loop body
never runs and `[]` is returned; a positive step runs the window loop. -/
def chunk_text (text : List Char) (chunk_size overlap : Int) :
    Except String (List (List Char)) :=
  let words := pySplit text
  if words.isEmpty then Except.ok []
  else
    let step := chunk_size - overlap
    if step = 0 then Except.error "range() arg 3 must not be zero"
    else if step < 0 then Except.ok []
    else Except.ok (chunkLoop words chunk_size (step.toNat - 1) (words.length + 1) 0)

/-! ## `chunk_text` (prototype/ingest_cv.py, lines 28-51)

The prototype file contains its own textually identical copy of the
chunker; it is embedded separately so the two can be compared. -/

/-- The window loop of the prototype's `chunk_text` (same code as
`chunkLoop`). -/
def protoChunkLoop (words : List (List Char)) (chunk_size : Int) (s : Nat) :
    Nat → Nat → List (List Char)
  | 0, _ => []
  | fuel + 1, i =>
    if i < words.length then
      let chunk_words := pySlice words i ((i : Int) + chunk_size)
      let chunk_str := pyJoin [' '] chunk_words
      let rest :=
        if (words.length : Int) ≤ (i : Int) + chunk_size then []
        else protoChunkLoop words chunk_size s fuel (i + s + 1)
      if (pyStrip chunk_str).isEmpty then rest else chunk_str :: rest
    else []

/-- Embedding of `chunk_text` from `prototype/ingest_cv.py` (same code as `chunk_text`
of `src/ingest_cv.py`). -/
def proto_chunk_text (text : List Char) (chunk_size overlap : Int) :
    Except String (List (List Char)) :=
  let words := pySplit text
  if words.isEmpty then Except.ok []
  else
    let step := chunk_size - overlap
    if step = 0 then Except.error "range() arg 3 must not be zero"
    else if step < 0 then Except.ok []
    else Except.ok (protoChunkLoop words chunk_size (step.toNat - 1) (words.length + 1) 0)

/-! ## `generate_chunk_id` (src/ingest_cv.py, lines 81-93)

`generate_chunk_id` computes `hashlib.md5(f"{filename}_{chunk_index}".encode()).hexdigest()`.
The MD5 algorithm (RFC 1321) is embedded below over byte lists, with 32-bit
words represented as `Nat` reduced modulo `2^32`. -/

/-- Left rotation, over 32 bits, of `x < 2^32` by `n ≤ 32` bits. -/
def rotl32 (x n : Nat) : Nat :=
  ((x <<< n) % 4294967296) ||| (x >>> (32 - n))

/-- Bitwise complement, over 32 bits, of `x < 2^32`. -/
def not32 (x : Nat) : Nat :=
  x ^^^ 4294967295

/-- The MD5 sine-derived constant table `K[0..63]` (RFC 1321). -/
def md5K : List Nat :=
  [0xd76aa478, 0xe8c7b756, 0x242070db, 0xc1bdceee,
   0xf57c0faf, 0x4787c62a, 0xa8304613, 0xfd469501,
   0x698098d8, 0x8b44f7af, 0xffff5bb1, 0x895cd7be,
   0x6b901122, 0xfd987193, 0xa679438e, 0x49b40821,
   0xf61e2562, 0xc040b340, 0x265e5a51, 0xe9b6c7aa,
   0xd62f105d, 0x02441453, 0xd8a1e681, 0xe7d3fbc8,
   0x21e1cde6, 0xc33707d6, 0xf4d50d87, 0x455a14ed,
   0xa9e3e905, 0xfcefa3f8, 0x676f02d9, 0x8d2a4c8a,
   0xfffa3942, 0x8771f681, 0x6d9d6122, 0xfde5380c,
   0xa4beea44, 0x4bdecfa9, 0xf6bb4b60, 0xbebfbc70,
   0x289b7ec6, 0xeaa127fa, 0xd4ef3085, 0x04881d05,
   0xd9d4d039, 0xe6db99e5, 0x1fa27cf8, 0xc4ac5665,
   0xf4292244, 0x432aff97, 0xab9423a7, 0xfc93a039,
   0x655b59c3, 0x8f0ccc92, 0xffeff47d, 0x85845dd1,
   0x6fa87e4f, 0xfe2ce6e0, 0xa3014314, 0x4e0811a1,
   0xf7537e82, 0xbd3af235, 0x2ad7d2bb, 0xeb86d391]

/-- The MD5 per-round shift table `s[0..63]` (RFC 1321). -/
def md5S : List Nat :=
  [7, 12, 17, 22, 7, 12, 17, 22, 7, 12, 17, 22, 7, 12, 17, 22,
   5, 9, 14, 20, 5, 9, 14, 20, 5, 9, 14, 20, 5, 9, 14, 20,
   4, 11, 16, 23, 4, 11, 16, 23, 4, 11, 16, 23, 4, 11, 16, 23,
   6, 10, 15, 21, 6, 10, 15, 21, 6, 10, 15, 21, 6, 10, 15, 21]

/-- The `k` little-endian bytes of `n` (excess bits beyond `8 * k` dropped). -/
def leBytes : Nat → Nat → List Nat
  | 0, _ => []
  | k + 1, n => (n % 256) :: leBytes k (n / 256)

/-- Group little-endian bytes into 32-bit words (incomplete tail dropped;
MD5 blocks are always a whole number of words). -/
def bytesToWords : List Nat → List Nat
  | b0 :: b1 :: b2 :: b3 :: rest =>
    (b0 + 256 * b1 + 65536 * b2 + 16777216 * b3) :: bytesToWords rest
  | _ => []

/-- One of the 64 MD5 operations, acting on the running state `(a, b, c, d)`
with message words `m` at operation index `j`. -/
def md5Step (m : List Nat) (st : Nat × Nat × Nat × Nat) (j : Nat) :
    Nat × Nat × Nat × Nat :=
  let a := st.1
  let b := st.2.1
  let c := st.2.2.1
  let d := st.2.2.2
  let f :=
    if j < 16 then (b &&& c) ||| (not32 b &&& d)
    else if j < 32 then (d &&& b) ||| (not32 d &&& c)
    else if j < 48 then b ^^^ c ^^^ d
    else c ^^^ (b ||| not32 d)
  let g :=
    if j < 16 then j
    else if j < 32 then (5 * j + 1) % 16
    else if j < 48 then (3 * j + 5) % 16
    else (7 * j) % 16
  let t := (a + f + md5K.getD j 0 + m.getD g 0) % 4294967296
  (d, (b + rotl32 t (md5S.getD j 0)) % 4294967296, b, c)

/-- Process one 64-byte MD5 block, updating the chaining state. -/
def md5Block (st : Nat × Nat × Nat × Nat) (block : List Nat) :
    Nat × Nat × Nat × Nat :=
  let m := bytesToWords block
  let r := (List.range 64).foldl (md5Step m) st
  ((st.1 + r.1) % 4294967296, (st.2.1 + r.2.1) % 4294967296,
   (st.2.2.1 + r.2.2.1) % 4294967296, (st.2.2.2 + r.2.2.2) % 4294967296)

/-- Process a padded message 64 bytes at a time.  `fuel` bounds the number
of blocks; the callers pass the byte count, which always suffices. -/
def md5Blocks : Nat → Nat × Nat × Nat × Nat → List Nat → Nat × Nat × Nat × Nat
  | 0, st, _ => st
  | fuel + 1, st, bytes =>
    if bytes.isEmpty then st
    else md5Blocks fuel (md5Block st (bytes.take 64)) (bytes.drop 64)

/-- MD5 padding: append `0x80`, then zero bytes until the length is 56 mod
64, then the original bit length as 8 little-endian bytes. -/
def md5pad (msg : List Nat) : List Nat :=
  let padLen := (55 + 64 - (msg.length % 64)) % 64
  msg ++ 128 :: (List.replicate padLen 0 ++ leBytes 8 (8 * msg.length))

/-- The 16-byte MD5 digest of a byte list. -/
def md5Bytes (msg : List Nat) : List Nat :=
  let padded := md5pad msg
  let st := md5Blocks padded.length
    (0x67452301, 0xefcdab89, 0x98badcfe, 0x10325476) padded
  leBytes 4 st.1 ++ leBytes 4 st.2.1 ++ leBytes 4 st.2.2.1 ++ leBytes 4 st.2.2.2

/-- Lower-case hexadecimal digit for `n < 16`. -/
def hexDigit (n : Nat) : Char :=
  if n < 10 then Char.ofNat (48 + n) else Char.ofNat (87 + n)

/-- Embedding of `hashlib.md5(msg).hexdigest()`: the digest as 32 lower-case hex
characters. -/
def md5hex (msg : List Nat) : List Char :=
  (md5Bytes msg).flatMap (fun b => [hexDigit (b / 16), hexDigit (b % 16)])

/-- UTF-8 encoding of one Unicode code point (Python `str.encode()`). -/
def utf8Bytes (c : Char) : List Nat :=
  let n := c.toNat
  if n < 128 then [n]
  else if n < 2048 then [192 + n / 64, 128 + n % 64]
  else if n < 65536 then [224 + n / 4096, 128 + (n / 64) % 64, 128 + n % 64]
  else [240 + n / 262144, 128 + (n / 4096) % 64, 128 + (n / 64) % 64, 128 + n % 64]

/-- Python `s.encode()`: UTF-8 bytes of a string. -/
def strBytes (s : List Char) : List Nat :=
  s.flatMap utf8Bytes

/-- Embedding of `generate_chunk_id` from `src/ingest_cv.py`:
`hashlib.md5(f"{filename}_{chunk_index}".encode()).hexdigest()`. -/
def generate_chunk_id (filename : List Char) (chunk_index : Int) : List Char :=
  let id_string := filename ++ '_' :: (toString chunk_index).data
  md5hex (strBytes id_string)


/-! ## `ingest_cvs` control flow (src/ingest_cv.py, lines 96-187)

The externals (PyMuPDF, the embedding model, Pinecone) are opaque: a
source document is modelled by its name together with the text that
`extract_text_from_pdf` produced for it (that function catches every
exception and returns `""`, so an extraction failure appears as the empty
string).  Embedding and upserting always succeed and are not modelled
beyond the per-source chunk counts the loop accumulates. -/

/-- A PDF source as the ingestion loop sees it: its filename and the text
extraction produced (empty on extraction failure). -/
structure SourceDoc where
  name : String
  extracted : List Char
deriving DecidableEq

/-- What a run of `ingest_cvs` reports: which sources were uploaded (with
their chunk counts), which were skipped and why, the printed
`Total CVs processed` figure, and the printed `Total chunks created`
figure. -/
structure RunSummary where
  uploaded : List (String × Nat)
  skipped_no_text : List String
  skipped_no_chunks : List String
  reported_processed : Nat
  total_chunks : Nat
deriving DecidableEq

/-- The control flow of `ingest_cvs`: for each PDF in order, skip it when
extraction yielded no text (`continue`), skip it when chunking yielded no
chunks (`continue`), otherwise upload and count its chunks; afterwards the
summary prints `len(pdf_files)` as `Total CVs processed`.  An exception
from `chunk_text` would abort the whole run, which the `Except` bind
models. -/
def ingest_cvs (files : List SourceDoc) (chunk_size overlap : Int) :
    Except String RunSummary :=
  (files.foldlM
    (fun (acc : RunSummary) (f : SourceDoc) => do
      if f.extracted.isEmpty then
        return { acc with skipped_no_text := acc.skipped_no_text ++ [f.name] }
      else
        let chunks ← chunk_text f.extracted chunk_size overlap
        if chunks.isEmpty then
          return { acc with skipped_no_chunks := acc.skipped_no_chunks ++ [f.name] }
        else
          return { acc with
            uploaded := acc.uploaded ++ [(f.name, chunks.length)],
            total_chunks := acc.total_chunks + chunks.length })
    (⟨[], [], [], 0, 0⟩ : RunSummary)).map
    (fun (s : RunSummary) => { s with reported_processed := files.length })

/-! ## `get_relevant_context` (prototype/rag_matching.py, lines 34-74)

The FAISS search is opaque: the function is modelled from the point where
`index.search` has returned the row `indices[0]` of candidate positions
(FAISS pads that row with `-1` when fewer than `k` true neighbours exist).
The metadata dictionary is modelled as a partial map from positions to
records. -/

/-- Insertion into a Python dict of lists, as done by
`if key not in d: d[key] = []` followed by `d[key].append(hit)`: the first
entry with the given label receives the hit, a missing label is appended
at the end (Python dicts preserve insertion order). -/
def addHit {β : Type} (groups : List (String × List β)) (label : String) (hit : β) :
    List (String × List β) :=
  match groups with
  | [] => [(label, [hit])]
  | (k, hs) :: rest =>
    if k = label then (k, hs ++ [hit]) :: rest
    else (k, hs) :: addHit rest label hit

/-- One entry of the prototype's `cv_metadata.json` store. -/
structure FaissRecord where
  filename : String
  text : String
deriving DecidableEq

/-- The hit-collection loop of the prototype's `get_relevant_context`
(lines 53-63): skip the FAISS sentinel `-1`, skip positions without a
metadata record, group the rest by filename. -/
def hits_by_professor (indices : List Int) (metadata : Int → Option FaissRecord) :
    List (String × List String) :=
  indices.foldl
    (fun groups idx =>
      if idx = -1 then groups
      else
        match metadata idx with
        | none => groups
        | some record => addHit groups record.filename record.text)
    []

/-- The formatting loop of the prototype's `get_relevant_context`
(lines 66-72): one labelled section per group, chunks wrapped in `...`,
in group order. -/
def renderSections (groups : List (String × List String)) : String :=
  groups.foldl
    (fun acc g =>
      acc ++ "### CANDIDATE: " ++ g.1 ++ "\n" ++ "RELEVANT EXCERPTS:\n"
        ++ g.2.foldl (fun a c => a ++ "..." ++ c ++ "...\n") "" ++ "\n")
    ""

/-- Embedding of `get_relevant_context` from `prototype/rag_matching.py`, from the
search results onward: returns the rendered context and
`list(hits_by_professor.keys())`. -/
def proto_get_relevant_context (indices : List Int)
    (metadata : Int → Option FaissRecord) : String × List String :=
  let groups := hits_by_professor indices metadata
  (renderSections groups, groups.map Prod.fst)

/-! ## `get_relevant_context` (src/rag_matching.py, lines 42-96)

Modelled from the point where the Pinecone query has returned
`results['matches']`.  The score is carried through untouched (it is a
float in the source), so the aggregation is polymorphic in its type. -/

/-- One element of `results['matches']`: its metadata dict (each field may
be absent, `metadata.get` supplies the defaults) and its score. -/
structure PineconeMatch (α : Type) where
  faculty_name : Option String
  filename : Option String
  text : Option String
  score : α

/-- A hit as stored by the grouping loop: `{'text': ..., 'score': ...}`. -/
structure HitEntry (α : Type) where
  text : String
  score : α

/-- Embedding of `metadata.get('faculty_name', metadata.get('filename', 'Unknown'))`. -/
def matchLabel {α : Type} (m : PineconeMatch α) : String :=
  m.faculty_name.getD (m.filename.getD "Unknown")

/-- The grouping loop of `get_relevant_context` (lines 69-83): group the
matches by candidate label in encounter order. -/
def hits_by_faculty {α : Type} (ms : List (PineconeMatch α)) :
    List (String × List (HitEntry α)) :=
  ms.foldl
    (fun groups m => addHit groups (matchLabel m) ⟨m.text.getD "", m.score⟩)
    []

/-- The formatting loop of `get_relevant_context` (lines 86-92). -/
def renderFacultySections {α : Type} (groups : List (String × List (HitEntry α))) :
    String :=
  groups.foldl
    (fun acc g =>
      acc ++ "### CANDIDATE: " ++ g.1 ++ "\n" ++ "RELEVANT EXCERPTS:\n"
        ++ g.2.foldl (fun a c => a ++ "..." ++ c.text ++ "...\n") "" ++ "\n")
    ""

/-- Embedding of `get_relevant_context` from `src/rag_matching.py`, from the query
results onward: the rendered context and `list(hits_by_faculty.keys())`. -/
def get_relevant_context {α : Type} (ms : List (PineconeMatch α)) :
    String × List String :=
  let groups := hits_by_faculty ms
  (renderFacultySections groups, groups.map Prod.fst)

/-! ## Prompt assembly (src/rag_matching.py line 177; prototype/rag_matching.py
line 115; prototype/llm_matching.py line 29)

All three sites compute
`prompt_template.replace("{AWARD_TEXT}", award).replace("{CV_TEXT}", context)`. -/

/-- Worker for Python `str.replace` with a non-empty pattern `p :: ps`:
scan left to right, replacing each non-overlapping occurrence.  The fuel
(at least the string length plus one) makes the recursion structural; each
step consumes at least one character. -/
def replaceAux (p : Char) (ps rep : List Char) : Nat → List Char → List Char
  | 0, s => s
  | _ + 1, [] => []
  | fuel + 1, c :: rest =>
    if (p :: ps).isPrefixOf (c :: rest) then
      rep ++ replaceAux p ps rep fuel (rest.drop ps.length)
    else c :: replaceAux p ps rep fuel rest

/-- Python `s.replace(pat, rep)`: replace every non-overlapping occurrence
of `pat`, left to right.  An empty pattern inserts `rep` before every
character and at the end, as Python does. -/
def pyReplace (s pat rep : List Char) : List Char :=
  match pat with
  | [] => rep ++ s.flatMap (fun c => c :: rep)
  | p :: ps => replaceAux p ps rep (s.length + 1) s

/-- The `{AWARD_TEXT}` placeholder. -/
def awardPlaceholder : List Char := "\x7bAWARD_TEXT\x7d".data

/-- The `{CV_TEXT}` placeholder. -/
def cvPlaceholder : List Char := "\x7bCV_TEXT\x7d".data

/-- The prompt construction shared by `match_award_to_faculty`
(src/rag_matching.py line 177), `prototype/rag_matching.py` line 115 and
`prototype/llm_matching.py` line 29. -/
def assemble_prompt (prompt_template award_text context_string : List Char) :
    List Char :=
  pyReplace (pyReplace prompt_template awardPlaceholder award_text)
    cvPlaceholder context_string

/-! ## `call_llm` response handling (src/rag_matching.py, lines 99-130)

The HTTP call is opaque; the embedded function starts from the parsed
response `data = response.json()`, taken to be a JSON object (dict). -/

/-- A JSON value as Python's `json` module produces it (numbers restricted
to integers; no claim inspects numeric values). -/
inductive PyJson where
  | null
  | boolean (b : Bool)
  | num (n : Int)
  | str (s : String)
  | arr (elems : List PyJson)
  | obj (fields : List (String × PyJson))

/-- Python subscripting `j[i]` with an integer index. -/
def pySubscriptIdx (j : PyJson) (i : Nat) : Except String PyJson :=
  match j with
  | .arr xs =>
    match xs.get? i with
    | some x => Except.ok x
    | none => Except.error "IndexError: list index out of range"
  | .str s =>
    match s.data.get? i with
    | some c => Except.ok (.str (String.mk [c]))
    | none => Except.error "IndexError: string index out of range"
  | .obj _ => Except.error "KeyError: 0"
  | _ => Except.error "TypeError: object is not subscriptable"

/-- Python subscripting `j[k]` with a string key. -/
def pySubscriptKey (j : PyJson) (k : String) : Except String PyJson :=
  match j with
  | .obj fields =>
    match fields.lookup k with
    | some v => Except.ok v
    | none => Except.error ("KeyError: " ++ k)
  | _ => Except.error "TypeError: indices must be str"

/-- The response handling of `call_llm` (lines 125-130): if `"choices" in
data`, return `data["choices"][0]["message"]["content"]`; otherwise raise
`Exception(f"TAMU API error: {data}")`. -/
def call_llm_handle (data : List (String × PyJson)) : Except String PyJson :=
  match data.lookup "choices" with
  | some choices => do
    let first ← pySubscriptIdx choices 0
    let message ← pySubscriptKey first "message"
    pySubscriptKey message "content"
  | none => Except.error "Exception: TAMU API error"

/-! ## Helper definitions used by the statements below -/

/-- The chunk list `chunk_text` produces, defaulting to `[]` on the raised
case (used only in statements whose hypotheses rule the raised case out). -/
def chunksOf (t : List Char) (cs ov : Int) : List (List Char) :=
  match chunk_text t cs ov with
  | Except.ok cl => cl
  | Except.error _ => []

/-- Total number of grouped hits across all candidate groups. -/
def totalHits {β : Type} (groups : List (String × List β)) : Nat :=
  (groups.map (fun g => g.2.length)).sum

/-- First-seen deduplication of a label sequence, as the specification
words it ("preserving first-seen order of labels"); the comparison target
for the aggregator's key order. -/
def firstSeenLabels (ls : List String) : List String :=
  ls.foldl (fun acc l => if l ∈ acc then acc else acc ++ [l]) []

/-- The rendering of a single candidate group, used to state that the
aggregated context string is the concatenation of per-group sections in
group order. -/
def renderOneSection {α : Type} (g : String × List (HitEntry α)) : String :=
  "### CANDIDATE: " ++ g.1 ++ "\nRELEVANT EXCERPTS:\n"
    ++ String.join (g.2.map (fun c => "..." ++ c.text ++ "...\n")) ++ "\n"

/-- A whitespace-free non-empty word, the shape of every token produced by
`pySplit`. -/
def goodWord (w : List Char) : Prop :=
  w ≠ [] ∧ ∀ c ∈ w, pyIsSpace c = false

/-! # Theorems

## Tokenization lemmas -/

/-- Every word `pySplit` (via `wordsAux`) produces is non-empty and free of
whitespace characters. -/
theorem wordsAux_good (l : List Char) :
    ∀ acc : List Char, (∀ c ∈ acc, pyIsSpace c = false) →
      ∀ w ∈ wordsAux l acc, goodWord w := by
  induction l with
  | nil =>
    intro acc hacc w hw
    simp only [wordsAux] at hw
    cases he : acc.isEmpty with
    | true => simp [he] at hw
    | false =>
      simp only [he, Bool.false_eq_true, if_false, List.mem_singleton] at hw
      subst hw
      refine ⟨fun hnil => ?_, fun c hc => hacc c (List.mem_reverse.mp hc)⟩
      rw [List.reverse_eq_nil_iff] at hnil
      simp [hnil] at he
  | cons c cs ih =>
    intro acc hacc w hw
    simp only [wordsAux] at hw
    by_cases hsp : pyIsSpace c
    · simp only [hsp, if_true] at hw
      cases he : acc.isEmpty with
      | true =>
        rw [he] at hw
        simp only [if_true] at hw
        exact ih [] (by simp) w hw
      | false =>
        rw [he] at hw
        simp only [Bool.false_eq_true, if_false, List.mem_cons] at hw
        rcases hw with hw | hw
        · subst hw
          refine ⟨fun hnil => ?_, fun d hd => hacc d (List.mem_reverse.mp hd)⟩
          rw [List.reverse_eq_nil_iff] at hnil
          simp [hnil] at he
        · exact ih [] (by simp) w hw
    · simp only [hsp, if_false] at hw
      refine ih (c :: acc) ?_ w hw
      intro d hd
      rcases List.mem_cons.mp hd with hd | hd
      · subst hd; exact Bool.eq_false_iff.mpr hsp
      · exact hacc d hd

/-- Every token of `pySplit` is a non-empty whitespace-free word. -/
theorem pySplit_good (s : List Char) : ∀ w ∈ pySplit s, goodWord w := by
  intro w hw
  exact wordsAux_good s [] (by simp) w hw

/-- Scanning a whitespace-free word accumulates it onto the accumulator. -/
theorem wordsAux_scan_word (w : List Char) :
    ∀ (l acc : List Char), (∀ c ∈ w, pyIsSpace c = false) →
      wordsAux (w ++ l) acc = wordsAux l (w.reverse ++ acc) := by
  induction w with
  | nil => intro l acc _; simp
  | cons c w' ih =>
    intro l acc hw
    have hc : pyIsSpace c = false := hw c (List.mem_cons_self c w')
    simp only [List.cons_append, wordsAux, hc, Bool.false_eq_true, if_false]
    rw [List.append_eq, ih l (c :: acc) (fun d hd => hw d (List.mem_cons_of_mem c hd))]
    simp [List.append_assoc]

/-- Splitting a space-joined list of good words recovers the words:
`" ".join(ws).split() == ws`. -/
theorem pySplit_pyJoin (ws : List (List Char)) :
    (∀ w ∈ ws, goodWord w) → pySplit (pyJoin [' '] ws) = ws := by
  induction ws with
  | nil => intro _; rfl
  | cons w vs ih =>
    intro hgood
    have hw : goodWord w := hgood w (List.mem_cons_self w vs)
    cases vs with
    | nil =>
      show wordsAux (pyJoin [' '] [w]) [] = [w]
      have : pyJoin [' '] [w] = w ++ [] := by simp [pyJoin]
      rw [this, wordsAux_scan_word w [] [] hw.2]
      simp only [wordsAux, List.append_nil, List.isEmpty_eq_true,
        List.reverse_eq_nil_iff]
      rw [if_neg hw.1]
      simp
    | cons v vs' =>
      show wordsAux (pyJoin [' '] (w :: v :: vs')) [] = w :: v :: vs'
      have hjoin : pyJoin [' '] (w :: v :: vs') =
          w ++ (' ' :: pyJoin [' '] (v :: vs')) := by
        simp [pyJoin]
      rw [hjoin, wordsAux_scan_word w _ [] hw.2]
      have hsp : pyIsSpace ' ' = true := by decide
      simp only [wordsAux, hsp, if_true, List.append_nil,
        List.isEmpty_eq_true, List.reverse_eq_nil_iff]
      rw [if_neg hw.1]
      have := ih (fun u hu => hgood u (List.mem_cons_of_mem w hu))
      simp only [pySplit] at this
      rw [this, List.reverse_reverse]

/-! ## Strip, join and slice lemmas -/

/-- The function `dropWhile` keeps a witness that falsifies the predicate. -/
theorem dropWhile_ne_nil_of_exists {p : Char → Bool} {l : List Char}
    (h : ∃ c ∈ l, p c = false) : l.dropWhile p ≠ [] := by
  induction l with
  | nil => rcases h with ⟨c, hc, _⟩; cases hc
  | cons c cs ih =>
    rcases h with ⟨d, hd, hdp⟩
    by_cases hc : p c
    · rw [List.dropWhile_cons_of_pos hc]
      rcases List.mem_cons.mp hd with rfl | hd
      · rw [hdp] at hc; cases hc
      · exact ih ⟨d, hd, hdp⟩
    · rw [List.dropWhile_cons_of_neg hc]
      simp

/-- A falsifying witness survives `dropWhile`. -/
theorem exists_mem_dropWhile {p : Char → Bool} {l : List Char}
    (h : ∃ c ∈ l, p c = false) : ∃ c ∈ l.dropWhile p, p c = false := by
  induction l with
  | nil => rcases h with ⟨c, hc, _⟩; cases hc
  | cons c cs ih =>
    rcases h with ⟨d, hd, hdp⟩
    by_cases hc : p c
    · rw [List.dropWhile_cons_of_pos hc]
      rcases List.mem_cons.mp hd with rfl | hd
      · rw [hdp] at hc; cases hc
      · exact ih ⟨d, hd, hdp⟩
    · rw [List.dropWhile_cons_of_neg hc]
      exact ⟨c, List.mem_cons_self c cs, Bool.eq_false_iff.mpr hc⟩

/-- A list with a non-whitespace character strips to something non-empty. -/
theorem pyStrip_ne_nil {l : List Char} (h : ∃ c ∈ l, pyIsSpace c = false) :
    pyStrip l ≠ [] := by
  unfold pyStrip
  rw [ne_eq, List.reverse_eq_nil_iff]
  apply dropWhile_ne_nil_of_exists
  rcases exists_mem_dropWhile h with ⟨c, hc, hcp⟩
  exact ⟨c, List.mem_reverse.mpr hc, hcp⟩

/-- Membership in the head word gives membership in the join. -/
theorem mem_pyJoin_head {sep w : List Char} {ws : List (List Char)} {c : Char}
    (hc : c ∈ w) : c ∈ pyJoin sep (w :: ws) := by
  cases ws with
  | nil => exact hc
  | cons v vs => simp [pyJoin, List.mem_append, hc]

/-- The join of a non-empty list of good words strips to something
non-empty (so the chunker's `if chunk_str.strip():` test passes). -/
theorem pyStrip_pyJoin_ne_nil {w : List Char} {ws : List (List Char)}
    (hw : goodWord w) : pyStrip (pyJoin [' '] (w :: ws)) ≠ [] := by
  apply pyStrip_ne_nil
  rcases List.exists_cons_of_ne_nil hw.1 with ⟨c, cs, rfl⟩
  exact ⟨c, mem_pyJoin_head (List.mem_cons_self c cs),
    hw.2 c (List.mem_cons_self c cs)⟩

/-- Unfolding the join of a cons with a non-empty tail. -/
theorem pyJoin_cons {sep w : List Char} {ws : List (List Char)} (h : ws ≠ []) :
    pyJoin sep (w :: ws) = w ++ sep ++ pyJoin sep ws := by
  cases ws with
  | nil => cases h rfl
  | cons v vs => rfl

/-- Joining a concatenation of two non-empty lists of words. -/
theorem pyJoin_append {sep : List Char} {ws vs : List (List Char)}
    (hws : ws ≠ []) (hvs : vs ≠ []) :
    pyJoin sep (ws ++ vs) = pyJoin sep ws ++ sep ++ pyJoin sep vs := by
  induction ws with
  | nil => cases hws rfl
  | cons w ws' ih =>
    cases ws' with
    | nil =>
      rcases List.exists_cons_of_ne_nil hvs with ⟨v, vs', rfl⟩
      rfl
    | cons w' ws'' =>
      have hne : (w' :: ws'') ++ vs ≠ [] := by simp
      rw [List.cons_append, pyJoin_cons hne, ih (by simp),
        pyJoin_cons (by simp : w' :: ws'' ≠ ([] : List (List Char)))]
      simp [List.append_assoc]

/-- For a non-negative window size the Python slice `l[i : i + cs]` is
drop-then-take. -/
theorem pySlice_nonneg {α : Type} (l : List α) (i : Nat) (cs : Int) (h : 0 ≤ cs) :
    pySlice l i ((i : Int) + cs) = (l.drop i).take cs.toNat := by
  simp only [pySlice]
  rw [if_neg (by omega : ¬((i : Int) + cs < 0))]
  rw [List.take_eq_take]
  simp only [List.length_drop]
  omega

/-- Slice members are list members. -/
theorem mem_of_mem_pySlice {α : Type} {l : List α} {i : Nat} {b : Int} {x : α}
    (h : x ∈ pySlice l i b) : x ∈ l := by
  unfold pySlice at h
  exact List.mem_of_mem_drop (List.mem_of_mem_take h)

/-- When the window reaches past the end of the word list, the slice is
the whole remaining suffix. -/
theorem pySlice_last {α : Type} (l : List α) (i : Nat) (cs : Int)
    (hcs : 0 ≤ cs) (hend : (l.length : Int) ≤ (i : Int) + cs) :
    pySlice l i ((i : Int) + cs) = l.drop i := by
  rw [pySlice_nonneg l i cs hcs]
  apply List.take_of_length_le
  simp only [List.length_drop]
  omega

/-- When the window stays inside the word list, the remaining suffix
splits as the window followed by the suffix starting `cs` later. -/
theorem pySlice_split {α : Type} (l : List α) (i : Nat) (cs : Int)
    (hcs : 0 ≤ cs) :
    pySlice l i ((i : Int) + cs) ++ l.drop (i + cs.toNat) = l.drop i := by
  rw [pySlice_nonneg l i cs hcs]
  have := List.take_append_drop cs.toNat (l.drop i)
  rw [List.drop_drop] at this
  exact this

/-! ## Window-loop lemmas -/

/-- The window loop's result does not depend on the fuel once the fuel
exceeds the remaining distance to the end of the word list, which the
call sites' `words.length + 1` always does. -/
theorem chunkLoop_fuel_stable (words : List (List Char)) (cs : Int) (s : Nat) :
    ∀ (f1 f2 i : Nat), words.length - i < f1 → words.length - i < f2 →
      chunkLoop words cs s f1 i = chunkLoop words cs s f2 i := by
  intro f1
  induction f1 with
  | zero => intro f2 i h1 _; omega
  | succ f1 ih =>
    intro f2 i h1 h2
    cases f2 with
    | zero => omega
    | succ f2 =>
      simp only [chunkLoop]
      by_cases hi : i < words.length
      · rw [if_pos hi, if_pos hi]
        by_cases hbreak : (words.length : Int) ≤ (i : Int) + cs
        · rw [if_pos hbreak, if_pos hbreak]
        · rw [if_neg hbreak, if_neg hbreak,
            ih f2 (i + s + 1) (by omega) (by omega)]
      · rw [if_neg hi, if_neg hi]

/-- Every chunk the window loop emits is the space-join of some window
slice `words[j : j + chunk_size]`. -/
theorem chunkLoop_mem (words : List (List Char)) (cs : Int) (s : Nat) :
    ∀ fuel i, ∀ c ∈ chunkLoop words cs s fuel i,
      ∃ j, j < words.length ∧
        c = pyJoin [' '] (pySlice words j ((j : Int) + cs)) := by
  intro fuel
  induction fuel with
  | zero => intro i c hc; simp [chunkLoop] at hc
  | succ fuel ih =>
    intro i c hc
    simp only [chunkLoop] at hc
    by_cases hi : i < words.length
    · rw [if_pos hi] at hc
      by_cases hbreak : (words.length : Int) ≤ (i : Int) + cs
      · rw [if_pos hbreak] at hc
        by_cases hstrip :
            (pyStrip (pyJoin [' '] (pySlice words i ((i : Int) + cs)))).isEmpty
        · rw [if_pos hstrip] at hc
          cases hc
        · rw [if_neg hstrip] at hc
          rcases List.mem_cons.mp hc with rfl | hc
          · exact ⟨i, hi, rfl⟩
          · cases hc
      · rw [if_neg hbreak] at hc
        by_cases hstrip :
            (pyStrip (pyJoin [' '] (pySlice words i ((i : Int) + cs)))).isEmpty
        · rw [if_pos hstrip] at hc
          exact ih (i + s + 1) c hc
        · rw [if_neg hstrip] at hc
          rcases List.mem_cons.mp hc with rfl | hc
          · exact ⟨i, hi, rfl⟩
          · exact ih (i + s + 1) c hc
    · rw [if_neg hi] at hc
      cases hc

/-- The join of a non-empty list of good words strips to something
non-empty (general form). -/
theorem pyStrip_pyJoin_ne_nil_of_good {ws : List (List Char)} (hne : ws ≠ [])
    (hgood : ∀ w ∈ ws, goodWord w) : pyStrip (pyJoin [' '] ws) ≠ [] := by
  rcases List.exists_cons_of_ne_nil hne with ⟨w, ws', rfl⟩
  exact pyStrip_pyJoin_ne_nil (hgood w (List.mem_cons_self w ws'))

/-- The window starting inside the word list is non-empty (window size at
least one). -/
theorem pySlice_window_ne_nil {words : List (List Char)} {i : Nat} {cs : Int}
    (hi : i < words.length) (hcs : 1 ≤ cs) :
    pySlice words i ((i : Int) + cs) ≠ [] := by
  rw [pySlice_nonneg words i cs (by omega)]
  intro hcontra
  rcases List.take_eq_nil_iff.mp hcontra with h | h
  · omega
  · rw [List.drop_eq_nil_iff] at h
    omega

/-- With good words and a window of size at least one, the loop emits at
least one chunk from any in-range start index. -/
theorem chunkLoop_ne_nil {words : List (List Char)} {cs : Int} {s fuel i : Nat}
    (hgood : ∀ w ∈ words, goodWord w) (hcs : 1 ≤ cs)
    (hi : i < words.length) (hfuel : 0 < fuel) :
    chunkLoop words cs s fuel i ≠ [] := by
  cases fuel with
  | zero => omega
  | succ fuel =>
    simp only [chunkLoop]
    rw [if_pos hi]
    have hwin : pySlice words i ((i : Int) + cs) ≠ [] :=
      pySlice_window_ne_nil hi hcs
    have hgoodwin : ∀ w ∈ pySlice words i ((i : Int) + cs), goodWord w :=
      fun w hw => hgood w (mem_of_mem_pySlice hw)
    have hstrip : pyStrip (pyJoin [' '] (pySlice words i ((i : Int) + cs))) ≠ [] :=
      pyStrip_pyJoin_ne_nil_of_good hwin hgoodwin
    rw [if_neg (by simpa [List.isEmpty_eq_true] using hstrip)]
    simp

/-- With `overlap = 0` (loop step equal to the window size) the loop's
output, space-joined, reconstructs the space-join of the remaining words. -/
theorem chunkLoop_join (words : List (List Char)) (cs : Int)
    (hgood : ∀ w ∈ words, goodWord w) (hcs : 1 ≤ cs) :
    ∀ fuel i, words.length - i < fuel → i < words.length →
      pyJoin [' '] (chunkLoop words cs (cs.toNat - 1) fuel i) =
        pyJoin [' '] (words.drop i) := by
  intro fuel
  induction fuel with
  | zero => intro i hlt _; omega
  | succ fuel ih =>
    intro i hlt hi
    simp only [chunkLoop]
    rw [if_pos hi]
    have hwin : pySlice words i ((i : Int) + cs) ≠ [] :=
      pySlice_window_ne_nil hi hcs
    have hgoodwin : ∀ w ∈ pySlice words i ((i : Int) + cs), goodWord w :=
      fun w hw => hgood w (mem_of_mem_pySlice hw)
    have hstrip : pyStrip (pyJoin [' '] (pySlice words i ((i : Int) + cs))) ≠ [] :=
      pyStrip_pyJoin_ne_nil_of_good hwin hgoodwin
    rw [if_neg (by simpa [List.isEmpty_eq_true] using hstrip)]
    by_cases hbreak : (words.length : Int) ≤ (i : Int) + cs
    · rw [if_pos hbreak]
      show pyJoin [' '] [pyJoin [' '] (pySlice words i ((i : Int) + cs))] = _
      rw [pySlice_last words i cs (by omega) hbreak]
      rfl
    · rw [if_neg hbreak]
      have hidx : i + (cs.toNat - 1) + 1 = i + cs.toNat := by omega
      rw [hidx]
      have hi' : i + cs.toNat < words.length := by omega
      have hfuel' : words.length - (i + cs.toNat) < fuel := by omega
      have hrest : chunkLoop words cs (cs.toNat - 1) fuel (i + cs.toNat) ≠ [] :=
        chunkLoop_ne_nil hgood hcs hi' (by omega)
      rw [pyJoin_cons hrest, ih (i + cs.toNat) hfuel' hi']
      have hdrop : words.drop (i + cs.toNat) ≠ [] := by
        rw [ne_eq, List.drop_eq_nil_iff]
        omega
      rw [← pyJoin_append hwin hdrop, pySlice_split words i cs (by omega)]

/-! ## Claim theorems: chunker -/

/-- C1 (counterexample).  The claim says every call with
`overlap >= size` fails fast with an error; but with `overlap = 2 >
size = 1` on the two-token text `"a b"` the loop step is negative, Python's
`range` is empty, and `chunk_text` silently returns the empty sequence
instead of raising. -/
theorem chunk_text_overlap_ge_size_not_always_error :
    (1 : Int) ≤ 2 ∧ chunk_text "a b".data 1 2 = Except.ok [] :=
  ⟨by decide, rfl⟩

/-- C1 (amended).  `chunk_text` fails fast (raises `ValueError` from
`range`) exactly when `overlap = size` and the text has at least one
token; when `overlap > size` it silently returns the empty sequence, and
on empty or whitespace-only text it returns the empty sequence before the
step is ever examined. -/
theorem chunk_text_config_error_cases (t : List Char) (cs ov : Int) :
    (pySplit t ≠ [] → ov = cs →
       chunk_text t cs ov = Except.error "range() arg 3 must not be zero") ∧
    (cs < ov → chunk_text t cs ov = Except.ok []) ∧
    (pySplit t = [] → chunk_text t cs ov = Except.ok []) := by
  refine ⟨?_, ?_, ?_⟩
  · intro hne hov
    simp only [chunk_text]
    rw [if_neg (by simpa [List.isEmpty_eq_true] using hne)]
    rw [if_pos (by omega : cs - ov = 0)]
  · intro hlt
    simp only [chunk_text]
    by_cases he : (pySplit t).isEmpty
    · rw [if_pos he]
    · rw [if_neg he, if_neg (by omega : ¬(cs - ov = 0)),
        if_pos (by omega : cs - ov < 0)]
  · intro he
    simp only [chunk_text]
    rw [if_pos (by simp [List.isEmpty_eq_true, he])]

/-- C1 (witness for the amended theorem): `overlap = size = 1` on `"a b"`
raises; `overlap = 2 > size = 1` on `"a b"` returns `[]`; empty text
returns `[]`. -/
theorem chunk_text_config_error_cases_witness :
    chunk_text "a b".data 1 1 = Except.error "range() arg 3 must not be zero" ∧
    chunk_text "a b".data 1 2 = Except.ok [] ∧
    chunk_text "".data 1 1 = Except.ok [] :=
  ⟨(chunk_text_config_error_cases "a b".data 1 1).1 (by decide) rfl,
   (chunk_text_config_error_cases "a b".data 1 2).2.1 (by decide),
   (chunk_text_config_error_cases "".data 1 1).2.2 (by decide)⟩

/-- C2.  For `0 ≤ overlap < size`, `chunk_text` is a pure function (same
inputs give the same output sequence), never raises, and every returned
chunk has at most `size` whitespace-delimited tokens. -/
theorem chunk_text_deterministic_and_token_bounded (t : List Char)
    (cs ov : Int) (h0 : 0 ≤ ov) (h1 : ov < cs) :
    chunk_text t cs ov = chunk_text t cs ov ∧
    ∃ chunks, chunk_text t cs ov = Except.ok chunks ∧
      ∀ c ∈ chunks, ((pySplit c).length : Int) ≤ cs := by
  refine ⟨rfl, ?_⟩
  simp only [chunk_text]
  by_cases he : (pySplit t).isEmpty
  · rw [if_pos he]
    exact ⟨[], rfl, fun c hc => absurd hc (List.not_mem_nil c)⟩
  · rw [if_neg he, if_neg (by omega : ¬(cs - ov = 0)),
      if_neg (by omega : ¬(cs - ov < 0))]
    refine ⟨_, rfl, ?_⟩
    intro c hc
    rcases chunkLoop_mem (pySplit t) cs ((cs - ov).toNat - 1) _ 0 c hc with
      ⟨j, hj, rfl⟩
    have hgoodwin : ∀ w ∈ pySlice (pySplit t) j ((j : Int) + cs), goodWord w :=
      fun w hw => pySplit_good t w (mem_of_mem_pySlice hw)
    rw [pySplit_pyJoin _ hgoodwin, pySlice_nonneg _ j cs (by omega)]
    have := List.length_take_le cs.toNat ((pySplit t).drop j)
    omega

/-- C2 (witness): the configuration of the specification's worked example,
`size = 3`, `overlap = 1` on `"a b c d e"`. -/
theorem chunk_text_deterministic_and_token_bounded_witness :
    chunk_text "a b c d e".data 3 1 = chunk_text "a b c d e".data 3 1 ∧
    ∃ chunks, chunk_text "a b c d e".data 3 1 = Except.ok chunks ∧
      ∀ c ∈ chunks, ((pySplit c).length : Int) ≤ 3 :=
  chunk_text_deterministic_and_token_bounded "a b c d e".data 3 1
    (by decide) (by decide)

/-- C3.  With `overlap = 0` and `size ≥ 1` the returned chunks,
space-joined, reconstruct the space-join of the text's token sequence
exactly. -/
theorem chunk_text_overlap_zero_reconstructs (t : List Char) (cs : Int)
    (h : 1 ≤ cs) :
    ∃ chunks, chunk_text t cs 0 = Except.ok chunks ∧
      pyJoin [' '] chunks = pyJoin [' '] (pySplit t) := by
  simp only [chunk_text, Int.sub_zero]
  by_cases he : (pySplit t).isEmpty
  · rw [if_pos he]
    rw [List.isEmpty_eq_true] at he
    exact ⟨[], rfl, by rw [he]⟩
  · rw [if_neg he, if_neg (by omega : ¬(cs = 0)),
      if_neg (by omega : ¬(cs < 0))]
    refine ⟨_, rfl, ?_⟩
    have hne : pySplit t ≠ [] := by
      simpa [List.isEmpty_eq_true] using he
    have hpos : 0 < (pySplit t).length := List.length_pos.mpr hne
    have := chunkLoop_join (pySplit t) cs (pySplit_good t) h
      ((pySplit t).length + 1) 0 (by omega) hpos
    simpa using this

/-- C3 (witness): `size = 2`, `overlap = 0` on `"a b c d e"`. -/
theorem chunk_text_overlap_zero_reconstructs_witness :
    ∃ chunks, chunk_text "a b c d e".data 2 0 = Except.ok chunks ∧
      pyJoin [' '] chunks = pyJoin [' '] (pySplit "a b c d e".data) :=
  chunk_text_overlap_zero_reconstructs "a b c d e".data 2 (by decide)

/-- The two textually identical window loops compute the same function. -/
theorem chunkLoop_eq_protoChunkLoop (w : List (List Char)) (cs : Int) (s : Nat) :
    ∀ fuel i, chunkLoop w cs s fuel i = protoChunkLoop w cs s fuel i := by
  intro fuel
  induction fuel with
  | zero => intro i; rfl
  | succ fuel ih => intro i; simp only [chunkLoop, protoChunkLoop, ih]

/-- C9.  The `chunk_text` of `src/ingest_cv.py` and the `chunk_text` of
`prototype/ingest_cv.py` are extensionally equal on every input. -/
theorem chunk_text_eq_proto_chunk_text (t : List Char) (cs ov : Int) :
    chunk_text t cs ov = proto_chunk_text t cs ov := by
  simp only [chunk_text, proto_chunk_text, chunkLoop_eq_protoChunkLoop]

/-! ## Claim theorems: `generate_chunk_id` -/

set_option maxRecDepth 100000 in
/-- Sanity check of the MD5 embedding against the RFC 1321 test suite:
`MD5("abc") = 900150983cd24fb0d6963f7d28e17f72`. -/
theorem md5hex_rfc_abc :
    md5hex (strBytes "abc".data) = "900150983cd24fb0d6963f7d28e17f72".data := by
  decide

set_option maxRecDepth 100000 in
/-- Sanity check: `MD5("") = d41d8cd98f00b204e9800998ecf8427e` (RFC 1321). -/
theorem md5hex_rfc_empty :
    md5hex (strBytes "".data) = "d41d8cd98f00b204e9800998ecf8427e".data := by
  decide

set_option maxRecDepth 1000000 in
/-- C4 (amended).  `generate_chunk_id` is a pure deterministic function,
and the specification's three probe identifiers are pairwise distinct:
`id("cv1.pdf", 0)`, `id("cv1.pdf", 1)` and `id("cv2.pdf", 0)` computed
through the embedded MD5 differ exactly as `hashlib` computes them. -/
theorem generate_chunk_id_deterministic_and_probes_distinct :
    (∀ (f : List Char) (i : Int), generate_chunk_id f i = generate_chunk_id f i) ∧
    generate_chunk_id "cv1.pdf".data 0 ≠ generate_chunk_id "cv1.pdf".data 1 ∧
    generate_chunk_id "cv1.pdf".data 0 ≠ generate_chunk_id "cv2.pdf".data 0 :=
  ⟨fun _ _ => rfl, by decide, by decide⟩

/-- Every Unicode scalar value is below `0x110000`. -/
theorem char_toNat_lt (c : Char) : c.toNat < 1114112 := by
  rcases c.valid with h | ⟨_, h⟩ <;> · simp only [Char.toNat]; omega

/-- The map `Char.toNat` is injective. -/
theorem char_toNat_injective : Function.Injective Char.toNat := by
  intro a b h
  apply Char.ext
  apply UInt32.ext
  exact h

/-- The function `leBytes` produces exactly the requested number of bytes. -/
theorem leBytes_length (k : Nat) : ∀ n, (leBytes k n).length = k := by
  induction k with
  | zero => intro n; rfl
  | succ k ih => intro n; simp [leBytes, ih]

/-- An MD5 digest is 16 bytes. -/
theorem md5Bytes_length (msg : List Nat) : (md5Bytes msg).length = 16 := by
  simp [md5Bytes, leBytes_length]

/-- Each byte renders as two hex characters. -/
theorem flatMap_hexPair_length (l : List Nat) :
    (l.flatMap (fun b => [hexDigit (b / 16), hexDigit (b % 16)])).length =
      2 * l.length := by
  induction l with
  | nil => rfl
  | cons b bs ih => simp [ih]; omega

/-- An MD5 hex digest is always 32 characters long. -/
theorem md5hex_length (msg : List Nat) : (md5hex msg).length = 32 := by
  simp only [md5hex, flatMap_hexPair_length, md5Bytes_length]

/-- C4 (counterexample to the universal distinctness clause).  The claim
that changing the source id or the chunk index always changes the
identifier cannot hold: identifiers are 32-character hex strings, a finite
set, while the inputs are infinite, so by pigeonhole some two distinct
`(source_id, chunk_index)` pairs share an identifier. -/
theorem generate_chunk_id_not_injective :
    ¬ (∀ (f1 : List Char) (i1 : Int) (f2 : List Char) (i2 : Int),
        (f1, i1) ≠ (f2, i2) →
          generate_chunk_id f1 i1 ≠ generate_chunk_id f2 i2) := by
  intro hclaim
  let F : Nat → (Fin 32 → Fin 1114112) := fun n i =>
    ⟨((generate_chunk_id "cv1.pdf".data (n : Int)).getD i ' ').toNat,
      char_toNat_lt _⟩
  obtain ⟨a, b, hab, hFab⟩ := Finite.exists_ne_map_eq_of_infinite F
  have hlen : ∀ n : Nat,
      (generate_chunk_id "cv1.pdf".data (n : Int)).length = 32 := by
    intro n
    exact md5hex_length _
  have hids : generate_chunk_id "cv1.pdf".data (a : Int) =
      generate_chunk_id "cv1.pdf".data (b : Int) := by
    apply List.ext_getElem (by rw [hlen, hlen])
    intro i h1 h2
    have hi32 : i < 32 := by rw [hlen] at h1; exact h1
    have := congrFun hFab ⟨i, hi32⟩
    have hval := congrArg Fin.val this
    simp only [F] at hval
    apply char_toNat_injective
    rwa [List.getD_eq_getElem _ _ h1, List.getD_eq_getElem _ _ h2] at hval
  exact hclaim "cv1.pdf".data (a : Int) "cv1.pdf".data (b : Int)
    (by simp [Prod.ext_iff]; omega) hids

/-! ## Claim theorems: ingestion control flow -/

/-- Under a valid configuration (`0 ≤ overlap < size`) chunking never
raises. -/
theorem chunk_text_ok (t : List Char) (cs ov : Int)
    (_h0 : 0 ≤ ov) (h1 : ov < cs) :
    chunk_text t cs ov = Except.ok (chunksOf t cs ov) := by
  have hok : ∀ e, chunk_text t cs ov ≠ Except.error e := by
    intro e
    simp only [chunk_text]
    by_cases he : (pySplit t).isEmpty
    · rw [if_pos he]; simp
    · rw [if_neg he, if_neg (by omega : ¬(cs - ov = 0)),
        if_neg (by omega : ¬(cs - ov < 0))]
      simp
  unfold chunksOf
  cases h : chunk_text t cs ov with
  | error e => exact absurd h (hok e)
  | ok cl => rfl

/-- Reducing a bind on `Except.ok` (the monadic bind used by the ingestion
fold). -/
theorem except_ok_bind {α β : Type} (a : α) (k : α → Except String β) :
    (Except.ok a >>= k) = k a := rfl

/-- The ingestion fold, characterized: starting from any accumulator the
loop never raises, appends each skipped source to the matching skip list,
appends each chunked source with its chunk count to the uploaded list, and
sums the chunk counts. -/
theorem ingest_fold (cs ov : Int) (h0 : 0 ≤ ov) (h1 : ov < cs) :
    ∀ (files : List SourceDoc) (acc : RunSummary),
      files.foldlM
        (fun (acc : RunSummary) (f : SourceDoc) => do
          if f.extracted.isEmpty then
            return { acc with skipped_no_text := acc.skipped_no_text ++ [f.name] }
          else
            let chunks ← chunk_text f.extracted cs ov
            if chunks.isEmpty then
              return { acc with
                skipped_no_chunks := acc.skipped_no_chunks ++ [f.name] }
            else
              return { acc with
                uploaded := acc.uploaded ++ [(f.name, chunks.length)],
                total_chunks := acc.total_chunks + chunks.length })
        acc
      = Except.ok
        { uploaded := acc.uploaded ++
            (files.filter (fun f => !f.extracted.isEmpty
                && !(chunksOf f.extracted cs ov).isEmpty)).map
              (fun f => (f.name, (chunksOf f.extracted cs ov).length)),
          skipped_no_text := acc.skipped_no_text ++
            (files.filter (fun f => f.extracted.isEmpty)).map SourceDoc.name,
          skipped_no_chunks := acc.skipped_no_chunks ++
            (files.filter (fun f => !f.extracted.isEmpty
                && (chunksOf f.extracted cs ov).isEmpty)).map SourceDoc.name,
          reported_processed := acc.reported_processed,
          total_chunks := acc.total_chunks +
            ((files.filter (fun f => !f.extracted.isEmpty
                && !(chunksOf f.extracted cs ov).isEmpty)).map
              (fun f => (chunksOf f.extracted cs ov).length)).sum } := by
  intro files
  induction files with
  | nil =>
    intro acc
    rw [List.foldlM_nil]
    show Except.ok acc = _
    simp
  | cons f fs ih =>
    intro acc
    rw [List.foldlM_cons]
    by_cases hext : f.extracted.isEmpty
    · simp only [hext, if_true, pure_bind, ih]
      simp [List.filter_cons, hext, List.append_assoc]
    · have hext' : f.extracted.isEmpty = false := Bool.eq_false_iff.mpr hext
      simp only [hext', Bool.false_eq_true, if_false,
        chunk_text_ok f.extracted cs ov h0 h1, except_ok_bind]
      by_cases hch : (chunksOf f.extracted cs ov).isEmpty
      · simp only [hch, if_true, pure_bind, ih]
        simp [List.filter_cons, hext', hch, List.append_assoc]
      · have hch' : (chunksOf f.extracted cs ov).isEmpty = false :=
          Bool.eq_false_iff.mpr hch
        simp only [hch', Bool.false_eq_true, if_false, pure_bind, ih]
        simp [List.filter_cons, hext', hch', List.append_assoc, Nat.add_assoc]

/-! ## Claim theorems: prototype retriever -/

/-- Adding one hit to the grouped dict increases the total hit count by
exactly one. -/
theorem addHit_totalHits {β : Type} (g : List (String × List β)) (l : String)
    (h : β) : totalHits (addHit g l h) = totalHits g + 1 := by
  induction g with
  | nil => simp [addHit, totalHits]
  | cons kv rest ih =>
    rcases kv with ⟨k, hs⟩
    by_cases hk : k = l
    · simp [addHit, hk, totalHits]
      omega
    · simp [addHit, hk, totalHits]
      simp [totalHits] at ih
      omega

/-- The hit-collection fold gathers at most one hit per index entry. -/
theorem hits_fold_totalHits_le (metadata : Int → Option FaissRecord) :
    ∀ (indices : List Int) (g : List (String × List String)),
      totalHits (indices.foldl
        (fun groups idx =>
          if idx = -1 then groups
          else
            match metadata idx with
            | none => groups
            | some record => addHit groups record.filename record.text)
        g) ≤ totalHits g + indices.length := by
  intro indices
  induction indices with
  | nil => intro g; simp
  | cons i is ih =>
    intro g
    rw [List.foldl_cons]
    by_cases hi : i = -1
    · rw [if_pos hi]
      calc totalHits _ ≤ totalHits g + is.length := ih g
        _ ≤ totalHits g + (i :: is).length := by
          simp only [List.length_cons]; omega
    · rw [if_neg hi]
      cases hmd : metadata i with
      | none =>
        calc totalHits _ ≤ totalHits g + is.length := ih g
          _ ≤ totalHits g + (i :: is).length := by
            simp only [List.length_cons]; omega
      | some record =>
        calc totalHits _ ≤ totalHits (addHit g record.filename record.text)
              + is.length := ih _
          _ = totalHits g + 1 + is.length := by rw [addHit_totalHits]
          _ ≤ totalHits g + (i :: is).length := by
            simp only [List.length_cons]; omega

/-- Sentinel positions contribute nothing to the grouped hits. -/
theorem hits_fold_filter_sentinel (metadata : Int → Option FaissRecord) :
    ∀ (indices : List Int) (g : List (String × List String)),
      indices.foldl
        (fun groups idx =>
          if idx = -1 then groups
          else
            match metadata idx with
            | none => groups
            | some record => addHit groups record.filename record.text)
        g
      = (indices.filter (fun i => i != -1)).foldl
          (fun groups idx =>
            if idx = -1 then groups
            else
              match metadata idx with
              | none => groups
              | some record => addHit groups record.filename record.text)
          g := by
  intro indices
  induction indices with
  | nil => intro g; rfl
  | cons i is ih =>
    intro g
    rw [List.foldl_cons, List.filter_cons]
    by_cases hi : i = -1
    · subst hi
      rw [if_pos rfl, if_neg (by decide : ¬(((-1 : Int) != -1) = true))]
      exact ih g
    · rw [if_neg hi, if_pos (by simp [hi] : ((i != -1) = true)),
        List.foldl_cons, if_neg hi]
      exact ih _

/-- C6.  When the index row has at most `k` entries (FAISS returns exactly
`k`, padding with the sentinel `-1`), the prototype retriever aggregates at
most `k` hits, the sentinel entries contribute nothing (the result equals
the result on the sentinel-free row), and the returned candidate list is
the key list of the grouped hits. -/
theorem proto_retriever_bounded_and_ignores_sentinels
    (indices : List Int) (metadata : Int → Option FaissRecord) (k : Nat)
    (hk : indices.length ≤ k) :
    totalHits (hits_by_professor indices metadata) ≤ k ∧
    hits_by_professor indices metadata =
      hits_by_professor (indices.filter (fun i => i != -1)) metadata ∧
    (proto_get_relevant_context indices metadata).2 =
      (hits_by_professor indices metadata).map Prod.fst := by
  refine ⟨?_, ?_, rfl⟩
  · calc totalHits (hits_by_professor indices metadata)
        ≤ totalHits ([] : List (String × List String)) + indices.length :=
          hits_fold_totalHits_le metadata indices []
      _ ≤ k := by simp [totalHits]; omega
  · exact hits_fold_filter_sentinel metadata indices []

/-- C6 (witness): a five-entry index row containing the sentinel `-1` and
an unknown position `7`, with `k = 5`. -/
theorem proto_retriever_bounded_and_ignores_sentinels_witness :
    totalHits (hits_by_professor [0, 1, 2, -1, 7]
      (fun i => if i = 0 then some ⟨"B", "b0"⟩ else if i = 1 then
        some ⟨"A", "a0"⟩ else if i = 2 then some ⟨"B", "b1"⟩ else none)) ≤ 5 ∧
    hits_by_professor [0, 1, 2, -1, 7]
      (fun i => if i = 0 then some ⟨"B", "b0"⟩ else if i = 1 then
        some ⟨"A", "a0"⟩ else if i = 2 then some ⟨"B", "b1"⟩ else none) =
      hits_by_professor ([0, 1, 2, -1, 7].filter (fun i => i != -1))
        (fun i => if i = 0 then some ⟨"B", "b0"⟩ else if i = 1 then
          some ⟨"A", "a0"⟩ else if i = 2 then some ⟨"B", "b1"⟩ else none) ∧
    (proto_get_relevant_context [0, 1, 2, -1, 7]
      (fun i => if i = 0 then some ⟨"B", "b0"⟩ else if i = 1 then
        some ⟨"A", "a0"⟩ else if i = 2 then some ⟨"B", "b1"⟩ else none)).2 =
      (hits_by_professor [0, 1, 2, -1, 7]
        (fun i => if i = 0 then some ⟨"B", "b0"⟩ else if i = 1 then
          some ⟨"A", "a0"⟩ else if i = 2 then some ⟨"B", "b1"⟩ else none)).map
        Prod.fst :=
  proto_retriever_bounded_and_ignores_sentinels [0, 1, 2, -1, 7] _ 5
    (by decide)

/-! ## Claim theorems: context aggregator (src) -/

/-- Unfolding `String.join` over a cons. -/
theorem string_join_cons (s : String) (l : List String) :
    String.join (s :: l) = s ++ String.join l := by
  simp [String.join_eq]
  rfl

/-- The insertion `addHit` keeps the key order, appending a fresh label at the end. -/
theorem addHit_map_fst {β : Type} (g : List (String × List β)) (l : String)
    (h : β) :
    (addHit g l h).map Prod.fst =
      if l ∈ g.map Prod.fst then g.map Prod.fst else g.map Prod.fst ++ [l] := by
  induction g with
  | nil => simp [addHit]
  | cons kv rest ih =>
    rcases kv with ⟨k, hs⟩
    by_cases hk : k = l
    · subst hk
      simp [addHit]
    · simp only [addHit, if_neg hk, List.map_cons, ih]
      have : l ∈ k :: rest.map Prod.fst ↔ l ∈ rest.map Prod.fst := by
        constructor
        · intro hmem
          rcases List.mem_cons.mp hmem with he | hm
          · exact absurd he.symm hk
          · exact hm
        · exact fun hm => List.mem_cons_of_mem k hm
      by_cases hmem : l ∈ rest.map Prod.fst
      · simp [hmem, this.mpr hmem]
      · rw [if_neg hmem, if_neg (fun hc => hmem (this.mp hc))]
        simp

/-- The grouping fold's key order is the first-seen fold of the labels. -/
theorem hits_fold_map_fst {α : Type} :
    ∀ (ms : List (PineconeMatch α)) (g : List (String × List (HitEntry α))),
      (ms.foldl (fun groups m =>
          addHit groups (matchLabel m) ⟨m.text.getD "", m.score⟩) g).map
        Prod.fst =
      (ms.map matchLabel).foldl
        (fun acc l => if l ∈ acc then acc else acc ++ [l]) (g.map Prod.fst) := by
  intro ms
  induction ms with
  | nil => intro g; rfl
  | cons m rest ih =>
    intro g
    rw [List.foldl_cons, List.map_cons, List.foldl_cons, ih, addHit_map_fst]

/-- Lookup of the label just added. -/
theorem addHit_lookup_self {β : Type} (g : List (String × List β)) (l : String)
    (h : β) :
    (addHit g l h).lookup l = some (((g.lookup l).getD []) ++ [h]) := by
  induction g with
  | nil => simp [addHit, List.lookup]
  | cons kv rest ih =>
    rcases kv with ⟨k, hs⟩
    by_cases hk : k = l
    · subst hk
      simp [addHit, List.lookup]
    · have hlk : (l == k) = false :=
        beq_eq_false_iff_ne.mpr (fun he => hk he.symm)
      simp [addHit, if_neg hk, List.lookup, hlk, ih]

/-- Lookup of a different label is unchanged by `addHit`. -/
theorem addHit_lookup_other {β : Type} (g : List (String × List β))
    (l l' : String) (h : β) (hne : l' ≠ l) :
    (addHit g l h).lookup l' = g.lookup l' := by
  have hll : (l' == l) = false := beq_eq_false_iff_ne.mpr hne
  induction g with
  | nil => simp [addHit, List.lookup, hll]
  | cons kv rest ih =>
    rcases kv with ⟨k, hs⟩
    by_cases hk : k = l
    · subst hk
      simp [addHit, List.lookup, hll]
    · simp only [addHit, if_neg hk, List.lookup, ih]

/-- Grouped hits under a label are exactly the hits with that label, in
encounter order. -/
theorem hits_fold_lookup {α : Type} (l : String) :
    ∀ (ms : List (PineconeMatch α)) (g : List (String × List (HitEntry α))),
      ((ms.foldl (fun groups m =>
          addHit groups (matchLabel m) ⟨m.text.getD "", m.score⟩) g).lookup
        l).getD []
      = ((g.lookup l).getD []) ++
        (ms.filter (fun m => matchLabel m == l)).map
          (fun m => (⟨m.text.getD "", m.score⟩ : HitEntry α)) := by
  intro ms
  induction ms with
  | nil => intro g; simp
  | cons m rest ih =>
    intro g
    rw [List.foldl_cons, List.filter_cons]
    by_cases hm : matchLabel m = l
    · rw [if_pos (by simp [hm] : ((matchLabel m == l) = true))]
      rw [ih]
      subst hm
      rw [addHit_lookup_self]
      simp [List.append_assoc]
    · rw [if_neg (by simp [hm] : ¬((matchLabel m == l) = true))]
      rw [ih, addHit_lookup_other _ _ _ _ (fun he => hm he.symm)]

/-- The inner excerpt fold renders the join of the wrapped chunk texts. -/
theorem render_inner_fold {α : Type} :
    ∀ (cs : List (HitEntry α)) (acc : String),
      cs.foldl (fun a c => a ++ "..." ++ c.text ++ "...\n") acc =
        acc ++ String.join (cs.map (fun c => "..." ++ c.text ++ "...\n")) := by
  intro cs
  induction cs with
  | nil => intro acc; simp [String.join, String.append_empty]
  | cons c cs ih =>
    intro acc
    rw [List.foldl_cons, ih, List.map_cons, string_join_cons]
    simp [String.append_assoc]

/-- The section fold renders the join of the per-candidate sections, in
group order. -/
theorem renderFacultySections_eq_join {α : Type}
    (groups : List (String × List (HitEntry α))) :
    renderFacultySections groups = String.join (groups.map renderOneSection) := by
  have H : ∀ (gs : List (String × List (HitEntry α))) (acc : String),
      gs.foldl
        (fun acc g =>
          acc ++ "### CANDIDATE: " ++ g.1 ++ "\n" ++ "RELEVANT EXCERPTS:\n"
            ++ g.2.foldl (fun a c => a ++ "..." ++ c.text ++ "...\n") "" ++ "\n")
        acc
      = acc ++ String.join (gs.map renderOneSection) := by
    intro gs
    induction gs with
    | nil => intro acc; simp [String.join, String.append_empty]
    | cons g gs ih =>
      intro acc
      rw [List.foldl_cons, ih, List.map_cons, string_join_cons,
        render_inner_fold g.2 ""]
      simp only [renderOneSection, String.empty_append, String.append_assoc]
      rw [← String.append_assoc "\n" "RELEVANT EXCERPTS:\n"]
      rfl
  have := H groups ""
  rw [String.empty_append] at this
  exact this

/-- C7.  The aggregator lists candidate labels in first-seen order of the
hit sequence; within each label the grouped chunks are exactly that
label's hits in encounter order; the returned label list mirrors the order
of the rendered sections (the context is the join of per-group sections in
the same group order as the label list); and the worked example
`[B, A, B]` yields label order `[B, A]`. -/
theorem aggregator_preserves_first_seen_order :
    (∀ (α : Type) (ms : List (PineconeMatch α)),
      (hits_by_faculty ms).map Prod.fst = firstSeenLabels (ms.map matchLabel)) ∧
    (∀ (α : Type) (ms : List (PineconeMatch α)) (l : String),
      ((hits_by_faculty ms).lookup l).getD [] =
        (ms.filter (fun m => matchLabel m == l)).map
          (fun m => (⟨m.text.getD "", m.score⟩ : HitEntry α))) ∧
    (∀ (α : Type) (ms : List (PineconeMatch α)),
      get_relevant_context ms =
        (String.join ((hits_by_faculty ms).map renderOneSection),
          (hits_by_faculty ms).map Prod.fst)) ∧
    (hits_by_faculty [⟨some "B", none, some "b0", (0 : Nat)⟩,
        ⟨some "A", none, some "a0", 1⟩,
        ⟨some "B", none, some "b1", 2⟩]).map Prod.fst = ["B", "A"] := by
  refine ⟨?_, ?_, ?_, ?_⟩
  · intro α ms
    exact hits_fold_map_fst ms []
  · intro α ms l
    have := hits_fold_lookup l ms []
    simpa using this
  · intro α ms
    show (renderFacultySections (hits_by_faculty ms),
      (hits_by_faculty ms).map Prod.fst) = _
    rw [renderFacultySections_eq_join]
  · rfl

/-! ## Claim theorems: prompt assembly -/

/-- When the pattern occurs nowhere in the string, the replacement scan
copies the string unchanged. -/
theorem replaceAux_no_occurrence (p : Char) (ps rep : List Char) :
    ∀ (fuel : Nat) (s : List Char), ¬ (p :: ps) <:+: s →
      replaceAux p ps rep fuel s = s := by
  intro fuel
  induction fuel with
  | zero => intro s _; rfl
  | succ fuel ih =>
    intro s hno
    cases s with
    | nil => rfl
    | cons c rest =>
      have hpre : ¬ (p :: ps) <+: (c :: rest) := fun hp => hno hp.isInfix
      have hpreb : ((p :: ps).isPrefixOf (c :: rest)) = false := by
        rw [Bool.eq_false_iff]
        intro hb
        have hb2 := List.isPrefixOf_iff_prefix.mp hb
        exact hpre hb2
      simp only [replaceAux, hpreb, Bool.false_eq_true, if_false]
      rw [ih rest (fun hi => hno (List.infix_cons hi))]

/-- Python `s.replace(pat, rep)` with a non-empty pattern that does not
occur in `s` returns `s` unchanged. -/
theorem pyReplace_no_occurrence (s pat rep : List Char) (hne : pat ≠ [])
    (hno : ¬ pat <:+: s) : pyReplace s pat rep = s := by
  cases pat with
  | nil => cases hne rfl
  | cons p ps => exact replaceAux_no_occurrence p ps rep (s.length + 1) s hno

/-- C8 (counterexample).  A template containing neither placeholder is
returned unchanged by prompt assembly — the query text is not appended, so
the claimed template-then-query fallback does not hold. -/
theorem assemble_prompt_fallback_is_identity_not_concat :
    assemble_prompt "Hi".data "Q".data "C".data = "Hi".data ∧
    "Hi".data ≠ "Hi".data ++ "Q".data :=
  ⟨rfl, by decide⟩

/-- C8 (amended).  All three assembly sites perform two independent
`str.replace` calls; when the template contains neither `{AWARD_TEXT}` nor
`{CV_TEXT}`, both replacements no-op and the assembled prompt is the
template unchanged (a defined fallback, not an error — but identity, not
template-then-query concatenation). -/
theorem assemble_prompt_no_placeholder (t a c : List Char)
    (h1 : ¬ awardPlaceholder <:+: t) (h2 : ¬ cvPlaceholder <:+: t) :
    assemble_prompt t a c = t := by
  unfold assemble_prompt
  rw [pyReplace_no_occurrence t awardPlaceholder a (by decide) h1,
    pyReplace_no_occurrence t cvPlaceholder c (by decide) h2]

/-- C8 (witness for the amended theorem): the placeholder-free template
`"Hi"`. -/
theorem assemble_prompt_no_placeholder_witness :
    assemble_prompt "Hi".data "Q".data "C".data = "Hi".data :=
  assemble_prompt_no_placeholder "Hi".data "Q".data "C".data
    (by decide) (by decide)

/-! ## Claim theorems: `call_llm` response handling -/

/-- Reducing a bind on `Except.error`. -/
theorem except_error_bind {α β : Type} (e : String)
    (k : α → Except String β) :
    ((Except.error e : Except String α) >>= k) = Except.error e := rfl

/-- C10 (counterexample).  On the response `{"choices": []}` the key
`"choices"` is present, yet `data["choices"][0]` raises `IndexError` — so
"raises if and only if choices is absent" fails in the only-if
direction. -/
theorem call_llm_raises_with_choices_present :
    (List.lookup "choices" [("choices", PyJson.arr [])]).isSome = true ∧
    call_llm_handle [("choices", PyJson.arr [])] =
      Except.error "IndexError: list index out of range" :=
  ⟨rfl, rfl⟩

/-- C10 (amended).  `call_llm` raises (and never returns) when `"choices"`
is absent; when `"choices"` is present it returns
`data["choices"][0]["message"]["content"]` provided every subscript in the
chain resolves, but a present-yet-malformed `choices` value (for example an
empty list) also raises, so presence alone does not guarantee a return. -/
theorem call_llm_handle_spec (data : List (String × PyJson)) :
    (data.lookup "choices" = none →
      call_llm_handle data = Except.error "Exception: TAMU API error") ∧
    (∀ choices first message content,
      data.lookup "choices" = some choices →
      pySubscriptIdx choices 0 = Except.ok first →
      pySubscriptKey first "message" = Except.ok message →
      pySubscriptKey message "content" = Except.ok content →
      call_llm_handle data = Except.ok content) ∧
    (∀ choices e, data.lookup "choices" = some choices →
      pySubscriptIdx choices 0 = Except.error e →
      call_llm_handle data = Except.error e) := by
  refine ⟨?_, ?_, ?_⟩
  · intro h
    unfold call_llm_handle
    rw [h]
  · intro choices first message content h1 h2 h3 h4
    unfold call_llm_handle
    rw [h1]
    show (pySubscriptIdx choices 0 >>= fun first =>
      pySubscriptKey first "message" >>= fun msg =>
        pySubscriptKey msg "content") = _
    rw [h2, except_ok_bind, h3, except_ok_bind, h4]
  · intro choices e h1 h2
    unfold call_llm_handle
    rw [h1]
    show (pySubscriptIdx choices 0 >>= fun first =>
      pySubscriptKey first "message" >>= fun msg =>
        pySubscriptKey msg "content") = _
    rw [h2, except_error_bind]

/-- C10 (witness for the amended theorem): an error response without
`"choices"` raises; a well-formed single-choice response returns its
content. -/
theorem call_llm_handle_spec_witness :
    call_llm_handle [("x", PyJson.null)] =
      Except.error "Exception: TAMU API error" ∧
    call_llm_handle [("choices", PyJson.arr [PyJson.obj [("message",
        PyJson.obj [("content", PyJson.str "hi")])]])] =
      Except.ok (PyJson.str "hi") :=
  ⟨(call_llm_handle_spec [("x", PyJson.null)]).1 rfl,
   (call_llm_handle_spec [("choices", PyJson.arr [PyJson.obj [("message",
      PyJson.obj [("content", PyJson.str "hi")])]])]).2.1
     _ _ _ _ rfl rfl rfl rfl⟩

/-- C5 (counterexample to the summary clause).  With two sources of which
the first yields no text, the run does continue and upload the second, but
the final summary reports `Total CVs processed: 2` — `len(pdf_files)`,
counting the skipped source as processed instead of reflecting it as
skipped (only the in-loop log line mentions the skip). -/
theorem ingest_cvs_reports_skipped_as_processed :
    ingest_cvs [⟨"a.pdf", "".data⟩, ⟨"b.pdf", "x y".data⟩] 300 50 =
      Except.ok ⟨[("b.pdf", 1)], ["a.pdf"], [], 2, 1⟩ ∧
    (2 : Nat) ≠ [("b.pdf", 1)].length :=
  ⟨rfl, by decide⟩

/-- C5 (amended).  Under the configured chunking parameters a source with
empty extracted text (extraction failures surface as empty text) is
recorded in the no-text skip log and ingestion continues: the run never
raises, every later source is processed exactly as if the failed one were
absent, and skipped sources contribute no chunks; however the summary's
`Total CVs processed` figure is the number of discovered PDFs, skipped
ones included. -/
theorem ingest_cvs_skips_and_continues (files : List SourceDoc) (cs ov : Int)
    (h0 : 0 ≤ ov) (h1 : ov < cs) :
    ingest_cvs files cs ov = Except.ok
      { uploaded := (files.filter (fun f => !f.extracted.isEmpty
            && !(chunksOf f.extracted cs ov).isEmpty)).map
          (fun f => (f.name, (chunksOf f.extracted cs ov).length)),
        skipped_no_text :=
          (files.filter (fun f => f.extracted.isEmpty)).map SourceDoc.name,
        skipped_no_chunks := (files.filter (fun f => !f.extracted.isEmpty
            && (chunksOf f.extracted cs ov).isEmpty)).map SourceDoc.name,
        reported_processed := files.length,
        total_chunks := ((files.filter (fun f => !f.extracted.isEmpty
            && !(chunksOf f.extracted cs ov).isEmpty)).map
          (fun f => (chunksOf f.extracted cs ov).length)).sum } := by
  unfold ingest_cvs
  rw [ingest_fold cs ov h0 h1 files ⟨[], [], [], 0, 0⟩]
  simp [Except.map]

/-- C5 (witness for the amended theorem): the two-source run whose first
source extracts to empty text. -/
theorem ingest_cvs_skips_and_continues_witness :
    ingest_cvs [⟨"a.pdf", "".data⟩, ⟨"b.pdf", "x y".data⟩] 300 50 =
      Except.ok ⟨[("b.pdf", 1)], ["a.pdf"], [], 2, 1⟩ :=
  (ingest_cvs_skips_and_continues [⟨"a.pdf", "".data⟩, ⟨"b.pdf", "x y".data⟩]
    300 50 (by decide) (by decide)).trans (by rfl)
